import Mathlib

/-!
Verification of the patron HTTP route-cache subsystem.

The development shallowly embeds:
* the in-process LRU cache store (`cache/lru/lru.go`) together with the
  deferred-timer expiry scheduled by its `SetTTL`,
* the Redis-backed cache store (`cache/redis`, driven through the traced
  redis client; on a missing key the underlying client reports the
  `Nil`/`Empty` sentinel error),
* the route-level caching middleware (`component/http/middleware.go`
  supplies the method gate; the route cache handler, freshness negotiator
  and cache key builder it delegates to are modelled from the spec).

Time is modelled as natural-number instants passed explicitly to every
operation; the Go runtime firing of `time.AfterFunc` timers is modelled by
discharging every timer whose deadline has passed before an operation runs.
-/

namespace Patron

/-- Cached values (`interface{}` in the Go source) are modelled as strings. -/
abbrev Val := String

/-- Errors observable from a cache store call: the redis `Nil`/`Empty`
sentinel reported for a missing key, or a backend/connection failure. -/
inductive RErr where
  | empty
  | ioError
deriving DecidableEq

/-- Result triple of `Get(key) (interface{}, bool, error)`. -/
structure GetResult where
  value : Option Val
  found : Bool
  err : Option RErr
deriving DecidableEq

/-! ## In-process LRU store (`cache/lru/lru.go`, hashicorp/golang-lru) -/

/-- State of a hashicorp/golang-lru cache: the bound `size` and the entries
in most-recently-used-first order. -/
structure LruCache where
  size : Nat
  items : List (String × Val)
deriving DecidableEq

/-- `lru.Contains`: key membership, no recency update. -/
def lruContains (c : LruCache) (k : String) : Bool :=
  c.items.any (fun p => p.1 = k)

/-- `lru.Add`: update-and-move-to-front when the key is present, otherwise
push to the front and evict the least recently used entry when the bound is
exceeded. -/
def lruAdd (c : LruCache) (k : String) (v : Val) : LruCache :=
  if lruContains c k then
    { c with items := (k, v) :: c.items.filter (fun p => p.1 ≠ k) }
  else
    let l := (k, v) :: c.items
    { c with items := if c.size < l.length then l.dropLast else l }

/-- `lru.Remove`: drop the key. -/
def lruRemoveKey (c : LruCache) (k : String) : LruCache :=
  { c with items := c.items.filter (fun p => p.1 ≠ k) }

/-- `lru.Purge`: drop everything. -/
def lruPurgeAll (c : LruCache) : LruCache :=
  { c with items := [] }

/-- Value bound to a key, if present. -/
def lruFind (c : LruCache) (k : String) : Option Val :=
  (c.items.find? (fun p => p.1 = k)).map (fun p => p.2)

/-- Recency update performed by `lru.Get` on a hit. -/
def lruTouch (c : LruCache) (k : String) : LruCache :=
  match lruFind c k with
  | some v => { c with items := (k, v) :: c.items.filter (fun p => p.1 ≠ k) }
  | none => c

/-- `Cache.Get` of `cache/lru/lru.go`: `value, ok := c.lru.Get(key); return value, ok, nil`. -/
def cacheGet (c : LruCache) (k : String) : GetResult × LruCache :=
  match lruFind c k with
  | some v => (⟨some v, true, none⟩, lruTouch c k)
  | none => (⟨none, false, none⟩, c)

/-- `Cache.Set` of `cache/lru/lru.go`: `c.lru.Add(key, value); return nil`. -/
def cacheSet (c : LruCache) (k : String) (v : Val) : Option RErr × LruCache :=
  (none, lruAdd c k v)

/-- `Cache.Remove` of `cache/lru/lru.go`: `c.lru.Remove(key)`, nil error. -/
def cacheRemove (c : LruCache) (k : String) : Option RErr × LruCache :=
  (none, lruRemoveKey c k)

/-- `Cache.Purge` of `cache/lru/lru.go`: `c.lru.Purge()`, nil error. -/
def cachePurge (c : LruCache) : Option RErr × LruCache :=
  (none, lruPurgeAll c)

/-- LRU cache together with the `time.AfterFunc` removal timers scheduled by
`Cache.SetTTL`: each timer is a `(deadline, key)` pair and fires by calling
`Cache.Remove(key)`. -/
structure LruStore where
  cache : LruCache
  timers : List (Nat × String)
deriving DecidableEq

/-- Runtime behaviour of the scheduled timers: before an operation runs at
instant `t`, every timer whose deadline has passed fires, removing its key. -/
def fireDue (s : LruStore) (t : Nat) : LruStore :=
  { cache := (s.timers.filter (fun tm => tm.1 ≤ t)).foldl
      (fun c tm => lruRemoveKey c tm.2) s.cache
    timers := s.timers.filter (fun tm => ¬ tm.1 ≤ t) }

/-- `Cache.SetTTL` of `cache/lru/lru.go` executed at instant `t`:
`c.lru.Add(key, value)` plus `time.AfterFunc(ttl, func() { c.Remove(key) })`.
The previously scheduled timers are left untouched (the source never cancels
them). Returns the nil error of the source. -/
def setTTLAt (s : LruStore) (k : String) (v : Val) (ttl t : Nat) :
    Option RErr × LruStore :=
  let s1 := fireDue s t
  (none, { cache := lruAdd s1.cache k v, timers := s1.timers ++ [(t + ttl, k)] })

/-- `Cache.Get` of `cache/lru/lru.go` executed at instant `t` (due timers
have fired by then). -/
def getAt (s : LruStore) (k : String) (t : Nat) : GetResult × LruStore :=
  let s1 := fireDue s t
  let r := cacheGet s1.cache k
  (r.1, { cache := r.2, timers := s1.timers })

/-! ## Redis-backed store (`cache/redis`, traced client) -/

/-- Redis server content: `(key, value, optional absolute expiry deadline)`
triples; `SET key value px ttl` stores a deadline, plain `SET` stores none. -/
structure RedisState where
  entries : List (String × Val × Option Nat)
deriving DecidableEq

/-- An entry is alive at instant `t` when it has no deadline or the deadline
has not been reached. -/
def redisLive (t : Nat) (e : String × Val × Option Nat) : Bool :=
  match e.2.2 with
  | none => true
  | some d => t < d

/-- Value the redis `get` command observes for a key at instant `t`. -/
def redisFind (s : RedisState) (k : String) (t : Nat) : Option Val :=
  ((s.entries.filter (redisLive t)).find? (fun e => e.1 = k)).map (fun e => e.2.1)

/-- `Cache.Get` of the redis cache: `res, err := rdb.Do(ctx, "get", key);
if err == redis.Empty || err != nil { return nil, false, err };
return res, true, nil`. `up` tells whether the backend call succeeds;
a missing key makes the client report the non-nil `Empty` sentinel. -/
def redisGet (up : Bool) (s : RedisState) (k : String) (t : Nat) : GetResult :=
  if up then
    match redisFind s k t with
    | some v => ⟨some v, true, none⟩
    | none => ⟨none, false, some RErr.empty⟩
  else ⟨none, false, some RErr.ioError⟩

/-- `SET`-style unconditional overwrite of one key. -/
def redisUpsert (s : RedisState) (k : String) (v : Val) (d : Option Nat) :
    RedisState :=
  ⟨(k, v, d) :: s.entries.filter (fun e => e.1 ≠ k)⟩

/-- `Cache.Set` of the redis cache: `rdb.Do(ctx, "set", key, value)`. -/
def redisSet (up : Bool) (s : RedisState) (k : String) (v : Val) :
    Option RErr × RedisState :=
  if up then (none, redisUpsert s k v none) else (some RErr.ioError, s)

/-- `Cache.SetTTL` of the redis cache executed at instant `t`:
`rdb.Do(ctx, "set", key, value, "px", ttl)` — the stored deadline is
`t + ttl`, replacing any previous deadline for the key. -/
def redisSetTTL (up : Bool) (s : RedisState) (k : String) (v : Val)
    (ttl t : Nat) : Option RErr × RedisState :=
  if up then (none, redisUpsert s k v (some (t + ttl))) else (some RErr.ioError, s)

/-- `Cache.Remove` of the redis cache: `rdb.Do(ctx, "del", key)` — deleting
an absent key is not an error. -/
def redisRemove (up : Bool) (s : RedisState) (k : String) :
    Option RErr × RedisState :=
  if up then (none, ⟨s.entries.filter (fun e => e.1 ≠ k)⟩) else (some RErr.ioError, s)

/-- `Cache.Purge` of the redis cache: `rdb.Do(ctx, "flushdb")`. -/
def redisPurge (up : Bool) (s : RedisState) : Option RErr × RedisState :=
  if up then (none, ⟨[]⟩) else (some RErr.ioError, s)

/-! ## Route cache, freshness negotiator, key builder, middleware

Only the caller (`NewCachingMiddleware` in `component/http/middleware.go`)
and the documentation of the route cache are in the tree; the handler it
delegates to, the freshness negotiator and the cache key builder are
modelled from the spec. -/

/-- Per-route freshness bounds; `min = 0 ∧ max = 0` is the sentinel that
disables caching for the route. -/
structure AgePolicy where
  min : Nat
  max : Nat
deriving DecidableEq

/-- Parsed client `Cache-Control` directives; every field defaults to
"not present". -/
structure RequestCacheControl where
  maxAge : Option Nat
  minFresh : Option Nat
  noCache : Bool
  noStore : Bool
  onlyIfCached : Bool
deriving DecidableEq

/-- Terminal outcomes of the freshness negotiation. -/
inductive Outcome where
  | serveFromCache
  | serveFromCacheWithWarning
  | serveFresh
  | reject
deriving DecidableEq

/-- A stored cache entry: payload, its content fingerprint, the instant it
was stored and its time to live. -/
structure CacheEntry where
  payload : String
  etag : String
  storedAt : Nat
  ttl : Nat
deriving DecidableEq

/-- Modelled from the spec: the freshness negotiator (spec section 4.3),
absent from src. Inputs are the route policy, the client cache-control and
the age of the entry when one exists; caching disabled always serves fresh,
an absent or too-old entry serves fresh unless the client asked
only-if-cached (reject), and a young-enough entry is negotiated against the
clamped client bounds. -/
def negotiate (policy : AgePolicy) (rcc : RequestCacheControl)
    (entryAge : Option Nat) : Outcome :=
  if policy.min = 0 ∧ policy.max = 0 then .serveFresh
  else
    match entryAge with
    | none => if rcc.onlyIfCached then .reject else .serveFresh
    | some age =>
      if policy.max ≤ age then
        if rcc.onlyIfCached then .reject else .serveFresh
      else
        let effectiveMaxAge :=
          match rcc.maxAge with
          | some m => Nat.max m policy.min
          | none => policy.max
        let effectiveMinFresh :=
          match rcc.minFresh with
          | some m => Nat.min m policy.max
          | none => 0
        let remaining := policy.max - age
        if rcc.noCache || rcc.noStore then
          if 0 < policy.min ∧ age ≤ policy.min then .serveFromCacheWithWarning
          else .serveFresh
        else if age ≤ effectiveMaxAge ∧ effectiveMinFresh ≤ remaining then
          .serveFromCache
        else if rcc.onlyIfCached then .serveFromCacheWithWarning
        else .serveFresh

/-- Modelled from the spec: the TTL store collaborator the route cache is
composed with (spec sections 2 and 4.1) — a key-to-entry mapping plus the
possibility of backend failure on reads (`failGet`) or writes (`failSet`). -/
structure TtlStore where
  entries : List (String × CacheEntry)
  failGet : Bool
  failSet : Bool
deriving DecidableEq

/-- Entry bound to a key in the TTL store, if any. -/
def tsFind (s : TtlStore) (k : String) : Option CacheEntry :=
  (s.entries.find? (fun p => p.1 = k)).map (fun p => p.2)

/-- Modelled from the spec: `Store.Get` of the TTL store contract — the
entry on a hit, nothing on a clean miss, an error on backend failure. -/
def tsGet (s : TtlStore) (k : String) : Except Unit (Option CacheEntry) :=
  if s.failGet then .error () else .ok (tsFind s k)

/-- Modelled from the spec: `Store.SetTTL` — unconditional overwrite, or an
error on backend failure. -/
def tsSetTTL (s : TtlStore) (k : String) (e : CacheEntry) :
    Except Unit TtlStore :=
  if s.failSet then .error ()
  else .ok { s with entries := (k, e) :: s.entries.filter (fun p => p.1 ≠ k) }

/-- Modelled from the spec: `RouteCache.Lookup` (spec section 4.4) — skip
the store when caching is disabled, fail open to `serveFresh` on a store
error, otherwise negotiate on the entry's age `now - storedAt`; the entry is
returned only on the two hit outcomes. -/
def routeLookup (s : TtlStore) (key : String) (policy : AgePolicy)
    (rcc : RequestCacheControl) (now : Nat) : Option CacheEntry × Outcome :=
  if policy.min = 0 ∧ policy.max = 0 then (none, .serveFresh)
  else
    match tsGet s key with
    | .error _ => (none, .serveFresh)
    | .ok none => (none, negotiate policy rcc none)
    | .ok (some e) =>
      let out := negotiate policy rcc (some (now - e.storedAt))
      match out with
      | .serveFromCache => (some e, out)
      | .serveFromCacheWithWarning => (some e, out)
      | _ => (none, out)

/-! ### Cache key builder (spec section 4.2, modelled from the spec) -/

/-- Split a character list on a separator character; `[[]]` on the empty
list, mirroring the splitting step of query parsing. -/
def splitOnChar (sep : Char) : List Char → List (List Char)
  | [] => [[]]
  | c :: rest =>
    let r := splitOnChar sep rest
    if c = sep then [] :: r
    else
      match r with
      | [] => [[c]]
      | g :: gs => (c :: g) :: gs

/-- Modelled from the spec: one `name=value` query component — the name is
what precedes the first `=`, the value the rest (empty when absent). -/
def parsePair (l : List Char) : String × String :=
  match splitOnChar '=' l with
  | [] => ("", "")
  | n :: rest => (⟨n⟩, ⟨(rest.intersperse ['=']).flatten⟩)

/-- Modelled from the spec: parse a raw query string into its
`(name, value)` pairs, duplicates preserved. -/
def parseQuery (raw : String) : List (String × String) :=
  match raw.data with
  | [] => []
  | l => (splitOnChar '&' l).map parsePair

/-- Strict lexicographic comparison of character lists. -/
def charListLtb : List Char → List Char → Bool
  | [], [] => false
  | [], _ :: _ => true
  | _ :: _, [] => false
  | a :: as, b :: bs =>
    if a < b then true
    else if b < a then false
    else charListLtb as bs

/-- Strict lexicographic comparison of strings. -/
def strLtb (a b : String) : Bool :=
  charListLtb a.data b.data

/-- Name-major, value-minor lexicographic order on query pairs, as a
computation. -/
def pairLeb (p q : String × String) : Bool :=
  if strLtb p.1 q.1 then true
  else if strLtb q.1 p.1 then false
  else ! strLtb q.2 p.2

/-- Name-major, value-minor lexicographic order on query pairs: sorting by
it realises "sort parameter names, then sort each name's values". -/
def pairLe (p q : String × String) : Prop :=
  pairLeb p q = true

instance : DecidableRel pairLe :=
  fun p q => inferInstanceAs (Decidable (pairLeb p q = true))

/-- Modelled from the spec: the cache key builder (spec section 4.2, absent
from src) — parse the raw query, normalise by sorting, and concatenate
`routePattern ++ "?" ++ name=value&...`. -/
def cacheKey (pattern raw : String) : String :=
  pattern ++ "?" ++
    String.intercalate "&"
      ((List.insertionSort pairLe (parseQuery raw)).map
        (fun p => p.1 ++ "=" ++ p.2))

/-! ### Caching middleware (spec section 4.5 plus the method gate of
`NewCachingMiddleware` in `component/http/middleware.go`) -/

/-- The parts of an HTTP request the caching layer reads. -/
structure HttpRequest where
  method : String
  path : String
  rawQuery : String
  rcc : RequestCacheControl
deriving DecidableEq

/-- The response the client observes. -/
structure HttpResponse where
  status : Nat
  body : String
  etag : Option String
  warning : Bool
deriving DecidableEq

/-- Modelled from the spec: the ETag is a stable content fingerprint of the
payload, stable across identical payloads; fingerprinted here by the payload
itself. -/
def etagOf (payload : String) : String :=
  payload

/-- Modelled from the spec: a response is eligible for storage when it is a
success (non-error, not a 5xx). -/
def isSuccess (status : Nat) : Bool :=
  decide (status < 500)

/-- What one pass of the caching middleware produced: the client-visible
response, whether the downstream handler ran, the store afterwards, and how
many store reads/writes were attempted. -/
structure MWResult where
  response : HttpResponse
  handlerInvoked : Bool
  store : TtlStore
  storeReads : Nat
  storeWrites : Nat
deriving DecidableEq

/-- Modelled from the spec: the route cache handler (spec section 4.5,
absent from src — `component/http/middleware.go` only calls it): serve the
stored payload with its ETag on a hit (plus a Warning on the overriding
hit), synthesise an empty 200 on reject, and on the fresh path run the
downstream handler, store a successful response under the key with
`policy.max` as TTL, and serve the downstream response regardless of
whether the store write succeeded. -/
def cacheHandler (handler : HttpRequest → HttpResponse) (policy : AgePolicy)
    (s : TtlStore) (req : HttpRequest) (now : Nat) : MWResult :=
  if policy.min = 0 ∧ policy.max = 0 then ⟨handler req, true, s, 0, 0⟩
  else
    let key := cacheKey req.path req.rawQuery
    match routeLookup s key policy req.rcc now with
    | (some e, .serveFromCache) =>
      ⟨⟨200, e.payload, some e.etag, false⟩, false, s, 1, 0⟩
    | (some e, .serveFromCacheWithWarning) =>
      ⟨⟨200, e.payload, some e.etag, true⟩, false, s, 1, 0⟩
    | (_, .reject) => ⟨⟨200, "", none, false⟩, false, s, 1, 0⟩
    | _ =>
      let resp := handler req
      if isSuccess resp.status then
        match tsSetTTL s key ⟨resp.body, etagOf resp.body, now, policy.max⟩ with
        | .ok s2 => ⟨{ resp with etag := some (etagOf resp.body) }, true, s2, 1, 1⟩
        | .error _ => ⟨resp, true, s, 1, 1⟩
      else ⟨resp, true, s, 1, 0⟩

/-- `NewCachingMiddleware` of `component/http/middleware.go`: a non-GET
request is passed straight to the downstream handler; a GET request goes
through the cache handler. -/
def cachingMiddleware (handler : HttpRequest → HttpResponse)
    (policy : AgePolicy) (s : TtlStore) (req : HttpRequest) (now : Nat) :
    MWResult :=
  if req.method ≠ "GET" then ⟨handler req, true, s, 0, 0⟩
  else cacheHandler handler policy s req now

/-! ## Order properties of the query-pair comparison -/

theorem charListLtb_asymm :
    ∀ {a b : List Char}, charListLtb a b = true → charListLtb b a = false
  | [], [], h => by simp [charListLtb] at h
  | [], _ :: _, _ => by simp [charListLtb]
  | _ :: _, [], h => by simp [charListLtb] at h
  | x :: xs, y :: ys, h => by
    simp only [charListLtb] at h ⊢
    by_cases hxy : x < y
    · simp [hxy, lt_asymm hxy]
    · by_cases hyx : y < x
      · simp [hxy, hyx] at h
      · simp only [hxy, hyx, if_neg, if_false, not_false_iff] at h ⊢
        exact charListLtb_asymm h

theorem charListLtb_conn :
    ∀ {a b : List Char}, charListLtb a b = false → charListLtb b a = false →
      a = b
  | [], [], _, _ => rfl
  | [], _ :: _, h, _ => by simp [charListLtb] at h
  | _ :: _, [], _, h => by simp [charListLtb] at h
  | x :: xs, y :: ys, h, h2 => by
    simp only [charListLtb] at h h2
    by_cases hxy : x < y
    · simp [hxy] at h
    · by_cases hyx : y < x
      · simp [hyx, hxy] at h2
      · simp only [hxy, hyx, if_neg, if_false, not_false_iff] at h h2
        have hx : x = y := le_antisymm (le_of_not_lt hyx) (le_of_not_lt hxy)
        have hs : xs = ys := charListLtb_conn h h2
        rw [hx, hs]

theorem charListLtb_trans :
    ∀ {a b c : List Char}, charListLtb a b = true → charListLtb b c = true →
      charListLtb a c = true
  | [], b, [], h1, h2 => by cases b <;> simp [charListLtb] at h1 h2
  | [], _, _ :: _, _, _ => by simp [charListLtb]
  | _ :: _, [], _, h1, _ => by simp [charListLtb] at h1
  | _ :: _, _ :: _, [], _, h2 => by simp [charListLtb] at h2
  | x :: xs, y :: ys, z :: zs, h1, h2 => by
    simp only [charListLtb] at h1 h2 ⊢
    by_cases hxy : x < y
    · by_cases hyz : y < z
      · simp [lt_trans hxy hyz]
      · by_cases hzy : z < y
        · simp [hyz, hzy] at h2
        · have : y = z := le_antisymm (le_of_not_lt hzy) (le_of_not_lt hyz)
          subst this
          simp [hxy]
    · by_cases hyx : y < x
      · simp [hxy, hyx] at h1
      · have hx : x = y := le_antisymm (le_of_not_lt hyx) (le_of_not_lt hxy)
        subst hx
        simp only [hxy, hyx, if_neg, if_false, not_false_iff] at h1
        by_cases hyz : x < z
        · simp [hyz]
        · by_cases hzy : z < x
          · simp [hyz, hzy] at h2
          · simp only [hyz, hzy, if_neg, if_false, not_false_iff] at h2 ⊢
            exact charListLtb_trans h1 h2

theorem strLtb_asymm {a b : String} (h : strLtb a b = true) :
    strLtb b a = false :=
  charListLtb_asymm h

theorem strLtb_conn {a b : String} (h : strLtb a b = false)
    (h2 : strLtb b a = false) : a = b := by
  cases a
  cases b
  exact congrArg String.mk (charListLtb_conn h h2)

theorem strLtb_trans {a b c : String} (h1 : strLtb a b = true)
    (h2 : strLtb b c = true) : strLtb a c = true :=
  charListLtb_trans h1 h2

instance : IsTotal (String × String) pairLe := by
  constructor
  intro p q
  simp only [pairLe, pairLeb]
  by_cases h1 : strLtb p.1 q.1 = true
  · left
    simp [h1]
  · by_cases h2 : strLtb q.1 p.1 = true
    · right
      simp [h2]
    · simp only [Bool.not_eq_true] at h1 h2
      by_cases h3 : strLtb q.2 p.2 = true
      · right
        simp [h1, h2, strLtb_asymm h3]
      · left
        simp only [Bool.not_eq_true] at h3
        simp [h1, h2, h3]

theorem strLtb_le_trans {a b c : String} (h1 : strLtb b a = false)
    (h2 : strLtb c b = false) : strLtb c a = false := by
  cases h3 : strLtb c a with
  | false => rfl
  | true =>
    exfalso
    cases h4 : strLtb b c with
    | true =>
      have : strLtb b a = true := strLtb_trans h4 h3
      rw [h1] at this
      exact Bool.false_ne_true this
    | false =>
      have hbc : c = b := strLtb_conn h2 h4
      rw [hbc] at h3
      rw [h1] at h3
      exact Bool.false_ne_true h3

instance : IsTrans (String × String) pairLe := by
  constructor
  intro p q r hpq hqr
  simp only [pairLe, pairLeb] at hpq hqr ⊢
  by_cases h1 : strLtb p.1 q.1 = true
  · by_cases h2 : strLtb q.1 r.1 = true
    · simp [strLtb_trans h1 h2]
    · by_cases h3 : strLtb r.1 q.1 = true
      · simp [h2, h3] at hqr
      · simp only [Bool.not_eq_true] at h2 h3
        have hqr1 : q.1 = r.1 := strLtb_conn h2 h3
        rw [← hqr1]
        simp [h1]
  · by_cases h2 : strLtb q.1 p.1 = true
    · simp [h1, h2] at hpq
    · simp only [Bool.not_eq_true] at h1 h2
      have hq : p.1 = q.1 := strLtb_conn h1 h2
      simp only [h1, h2, if_neg, if_false, Bool.false_eq_true,
        Bool.not_eq_true] at hpq
      by_cases h3 : strLtb q.1 r.1 = true
      · rw [hq]
        simp [h3]
      · by_cases h4 : strLtb r.1 q.1 = true
        · simp [h3, h4] at hqr
        · simp only [Bool.not_eq_true] at h3 h4
          simp only [h3, h4, if_neg, if_false, Bool.false_eq_true,
            Bool.not_eq_true] at hqr
          have hr : q.1 = r.1 := strLtb_conn h3 h4
          rw [hq, hr]
          rw [hr] at h3 h4
          simp only [h3, h4, if_neg, if_false, Bool.false_eq_true,
            Bool.not_eq_true]
          simp only [Bool.not_eq_true'] at hpq hqr ⊢
          exact strLtb_le_trans hpq hqr

instance : IsAntisymm (String × String) pairLe := by
  constructor
  intro p q hpq hqp
  simp only [pairLe, pairLeb] at hpq hqp
  by_cases h1 : strLtb p.1 q.1 = true
  · rw [strLtb_asymm h1] at hqp
    simp [h1] at hqp
  · by_cases h2 : strLtb q.1 p.1 = true
    · simp [h1, h2] at hpq
    · simp only [Bool.not_eq_true] at h1 h2
      have hfst : p.1 = q.1 := strLtb_conn h1 h2
      simp only [h1, h2, if_neg, if_false, Bool.false_eq_true,
        Bool.not_eq_true'] at hpq hqp
      have hsnd : q.2 = p.2 := strLtb_conn hpq hqp
      exact Prod.ext hfst hsnd.symm

/-! ## Negotiator and route-cache lemmas -/

theorem negotiate_none_cases (policy : AgePolicy) (rcc : RequestCacheControl) :
    negotiate policy rcc none = Outcome.reject ∨
    negotiate policy rcc none = Outcome.serveFresh := by
  unfold negotiate
  by_cases hd : policy.min = 0 ∧ policy.max = 0
  · right
    simp [hd]
  · by_cases ho : rcc.onlyIfCached
    · left
      simp [hd, ho]
    · right
      simp [hd, ho]

theorem negotiate_stale_cases (policy : AgePolicy) (rcc : RequestCacheControl)
    (age : Nat) (h : policy.max ≤ age) :
    negotiate policy rcc (some age) = Outcome.reject ∨
    negotiate policy rcc (some age) = Outcome.serveFresh := by
  unfold negotiate
  by_cases hd : policy.min = 0 ∧ policy.max = 0
  · right
    simp [hd]
  · by_cases ho : rcc.onlyIfCached
    · left
      simp [hd, ho, h]
    · right
      simp [hd, ho, h]

theorem routeLookup_stale_cases (s : TtlStore) (key : String)
    (policy : AgePolicy) (rcc : RequestCacheControl) (now : Nat)
    (hstale : ∀ e, tsFind s key = some e → policy.max ≤ now - e.storedAt) :
    (routeLookup s key policy rcc now).2 = Outcome.reject ∨
    (routeLookup s key policy rcc now).2 = Outcome.serveFresh := by
  unfold routeLookup tsGet
  by_cases hd : policy.min = 0 ∧ policy.max = 0
  · right
    simp [hd]
  · by_cases hg : s.failGet
    · right
      simp [hd, hg]
    · cases hfind : tsFind s key with
      | none =>
        rcases negotiate_none_cases policy rcc with h | h <;>
          simp [hd, hg, hfind, h]
      | some e =>
        rcases negotiate_stale_cases policy rcc (now - e.storedAt)
            (hstale e hfind) with h | h <;>
          simp [hd, hg, hfind, h]

/-- C1: an entry whose age `now - storedAt` has reached `AgePolicy.max` is
never served as a hit — `Lookup` never returns `ServeFromCache` or
`ServeFromCacheWithWarning` for it. -/
theorem lookup_never_serves_stale (s : TtlStore) (key : String)
    (policy : AgePolicy) (rcc : RequestCacheControl) (now : Nat)
    (e : CacheEntry) (hfind : tsFind s key = some e)
    (hage : policy.max ≤ now - e.storedAt) :
    (routeLookup s key policy rcc now).2 ≠ Outcome.serveFromCache ∧
    (routeLookup s key policy rcc now).2 ≠ Outcome.serveFromCacheWithWarning := by
  have hstale : ∀ e2, tsFind s key = some e2 → policy.max ≤ now - e2.storedAt := by
    intro e2 h2
    rw [hfind] at h2
    cases h2
    exact hage
  rcases routeLookup_stale_cases s key policy rcc now hstale with h | h <;>
    rw [h] <;> exact ⟨by simp, by simp⟩

/-- Witness for C1 at a concrete stale entry (age 10, `max` 5). -/
theorem lookup_never_serves_stale_witness :
    tsFind ⟨[("k", ⟨"p", "p", 0, 5⟩)], false, false⟩ "k" = some ⟨"p", "p", 0, 5⟩ ∧
    (5 : Nat) ≤ 10 - 0 ∧
    ((routeLookup ⟨[("k", ⟨"p", "p", 0, 5⟩)], false, false⟩ "k" ⟨1, 5⟩
        ⟨none, none, false, false, false⟩ 10).2 ≠ Outcome.serveFromCache ∧
      (routeLookup ⟨[("k", ⟨"p", "p", 0, 5⟩)], false, false⟩ "k" ⟨1, 5⟩
        ⟨none, none, false, false, false⟩ 10).2 ≠ Outcome.serveFromCacheWithWarning) :=
  ⟨by decide, by decide,
    lookup_never_serves_stale ⟨[("k", ⟨"p", "p", 0, 5⟩)], false, false⟩ "k"
      ⟨1, 5⟩ ⟨none, none, false, false, false⟩ 10 ⟨"p", "p", 0, 5⟩
      (by decide) (by decide)⟩

/-! ## Middleware theorems -/

/-- A concrete downstream handler used by the closed statements below. -/
def wHandler : HttpRequest → HttpResponse :=
  fun _ => ⟨200, "hello", none, false⟩

/-- An empty, healthy TTL store. -/
def wEmpty : TtlStore :=
  ⟨[], false, false⟩

/-- A POST request with no cache-control directives. -/
def wPost : HttpRequest :=
  ⟨"POST", "/r", "", ⟨none, none, false, false, false⟩⟩

/-- A GET request carrying `only-if-cached`. -/
def wReqOIC : HttpRequest :=
  ⟨"GET", "/r", "", ⟨none, none, false, false, true⟩⟩

/-- C2: a request whose method is not GET is passed through to the
downstream handler unchanged: the downstream response is served, the store
is untouched and no store read or write is attempted. -/
theorem non_get_bypasses_cache (handler : HttpRequest → HttpResponse)
    (policy : AgePolicy) (s : TtlStore) (req : HttpRequest) (now : Nat)
    (h : req.method ≠ "GET") :
    cachingMiddleware handler policy s req now =
      ⟨handler req, true, s, 0, 0⟩ := by
  unfold cachingMiddleware
  simp [h]

/-- Witness for C2 at a concrete POST request. -/
theorem non_get_bypasses_cache_witness :
    cachingMiddleware wHandler ⟨1, 5⟩ wEmpty wPost 0 =
      ⟨wHandler wPost, true, wEmpty, 0, 0⟩ :=
  non_get_bypasses_cache wHandler ⟨1, 5⟩ wEmpty wPost 0 (by decide)

theorem routeLookup_failGet (s : TtlStore) (key : String) (policy : AgePolicy)
    (rcc : RequestCacheControl) (now : Nat) (hg : s.failGet = true) :
    routeLookup s key policy rcc now = (none, Outcome.serveFresh) := by
  unfold routeLookup tsGet
  by_cases hd : policy.min = 0 ∧ policy.max = 0 <;> simp [hd, hg]

/-- C5: a TTL store failure never reaches the client. A `Get` failure
degrades the request to the always-fresh path (the downstream handler still
runs), and whenever the downstream handler runs — in particular whenever
the store write fails afterwards — its status and body are what the client
receives. -/
theorem store_errors_not_propagated (handler : HttpRequest → HttpResponse)
    (policy : AgePolicy) (s : TtlStore) (req : HttpRequest) (now : Nat)
    (hm : req.method = "GET") :
    (s.failGet = true →
      (cachingMiddleware handler policy s req now).handlerInvoked = true) ∧
    ((cachingMiddleware handler policy s req now).handlerInvoked = true →
      (cachingMiddleware handler policy s req now).response.status =
          (handler req).status ∧
        (cachingMiddleware handler policy s req now).response.body =
          (handler req).body) := by
  unfold cachingMiddleware
  simp only [hm, ne_eq, not_true_eq_false, if_false, Bool.false_eq_true]
  unfold cacheHandler
  by_cases hd : policy.min = 0 ∧ policy.max = 0
  · simp [hd]
  · simp only [hd, if_false]
    rcases hrl : routeLookup s (cacheKey req.path req.rawQuery) policy
        req.rcc now with ⟨oe, out⟩
    have hnohit : s.failGet = true → (oe, out) = (none, Outcome.serveFresh) := by
      intro hg
      rw [← hrl]
      exact routeLookup_failGet s _ policy req.rcc now hg
    cases out with
    | serveFromCache =>
      cases oe with
      | some e =>
        constructor
        · intro hg
          exact absurd (hnohit hg) (by simp)
        · intro hinv
          simp [hrl] at hinv
      | none =>
        constructor
        · intro _
          unfold tsSetTTL
          by_cases hw : s.failSet <;>
            by_cases hsu : isSuccess (handler req).status = true <;>
            simp [hrl, hw, hsu]
        · intro _
          unfold tsSetTTL
          by_cases hw : s.failSet <;>
            by_cases hsu : isSuccess (handler req).status = true <;>
            simp [hrl, hw, hsu]
    | serveFromCacheWithWarning =>
      cases oe with
      | some e =>
        constructor
        · intro hg
          exact absurd (hnohit hg) (by simp)
        · intro hinv
          simp [hrl] at hinv
      | none =>
        constructor
        · intro _
          unfold tsSetTTL
          by_cases hw : s.failSet <;>
            by_cases hsu : isSuccess (handler req).status = true <;>
            simp [hrl, hw, hsu]
        · intro _
          unfold tsSetTTL
          by_cases hw : s.failSet <;>
            by_cases hsu : isSuccess (handler req).status = true <;>
            simp [hrl, hw, hsu]
    | reject =>
      constructor
      · intro hg
        exact absurd (hnohit hg) (by simp)
      · intro hinv
        simp [hrl] at hinv
    | serveFresh =>
      constructor
      · intro _
        unfold tsSetTTL
        by_cases hw : s.failSet <;>
          by_cases hsu : isSuccess (handler req).status = true <;>
          simp [hrl, hw, hsu]
      · intro _
        unfold tsSetTTL
        by_cases hw : s.failSet <;>
          by_cases hsu : isSuccess (handler req).status = true <;>
          simp [hrl, hw, hsu]

/-- Witness for C5 at a concrete failing store. -/
theorem store_errors_not_propagated_witness :
    ((⟨[], true, true⟩ : TtlStore).failGet = true →
      (cachingMiddleware wHandler ⟨1, 5⟩ ⟨[], true, true⟩
        ⟨"GET", "/r", "", ⟨none, none, false, false, false⟩⟩ 0).handlerInvoked =
        true) ∧
    ((cachingMiddleware wHandler ⟨1, 5⟩ ⟨[], true, true⟩
        ⟨"GET", "/r", "", ⟨none, none, false, false, false⟩⟩ 0).handlerInvoked =
        true →
      (cachingMiddleware wHandler ⟨1, 5⟩ ⟨[], true, true⟩
          ⟨"GET", "/r", "", ⟨none, none, false, false, false⟩⟩ 0).response.status =
          (wHandler ⟨"GET", "/r", "", ⟨none, none, false, false, false⟩⟩).status ∧
        (cachingMiddleware wHandler ⟨1, 5⟩ ⟨[], true, true⟩
          ⟨"GET", "/r", "", ⟨none, none, false, false, false⟩⟩ 0).response.body =
          (wHandler ⟨"GET", "/r", "", ⟨none, none, false, false, false⟩⟩).body) :=
  store_errors_not_propagated wHandler ⟨1, 5⟩ ⟨[], true, true⟩
    ⟨"GET", "/r", "", ⟨none, none, false, false, false⟩⟩ 0 rfl

/-- C7 counterexample: on a route whose policy is the disabled sentinel
(`min = 0 ∧ max = 0`), a GET carrying `only-if-cached` against an empty
cache is served fresh — the downstream handler IS invoked, not rejected. -/
theorem onlyIfCached_not_rejected_when_disabled :
    (cachingMiddleware wHandler ⟨0, 0⟩ wEmpty wReqOIC 0).handlerInvoked =
      true := by
  decide

theorem routeLookup_reject (s : TtlStore) (key : String) (policy : AgePolicy)
    (rcc : RequestCacheControl) (now : Nat)
    (hd : ¬(policy.min = 0 ∧ policy.max = 0)) (hg : s.failGet = false)
    (hoic : rcc.onlyIfCached = true)
    (hstale : ∀ e, tsFind s key = some e → policy.max ≤ now - e.storedAt) :
    routeLookup s key policy rcc now = (none, Outcome.reject) := by
  unfold routeLookup tsGet
  cases hfind : tsFind s key with
  | none =>
    have hn : negotiate policy rcc none = Outcome.reject := by
      unfold negotiate
      simp [hd, hoic]
    simp [hd, hg, hfind, hn]
  | some e =>
    have hn : negotiate policy rcc (some (now - e.storedAt)) = Outcome.reject := by
      unfold negotiate
      simp [hd, hoic, hstale e hfind]
    simp [hd, hg, hfind, hn]

/-- C7 amended: on a route with caching enabled (policy not the disabled
sentinel) and a successful store read, a GET carrying `only-if-cached` with
no usable entry (absent, or at least `policy.max` old) is rejected: the
downstream handler never runs and the client receives an empty response
with a success status. -/
theorem onlyIfCached_rejects_without_usable_entry
    (handler : HttpRequest → HttpResponse) (policy : AgePolicy)
    (s : TtlStore) (req : HttpRequest) (now : Nat)
    (hd : ¬(policy.min = 0 ∧ policy.max = 0)) (hm : req.method = "GET")
    (hoic : req.rcc.onlyIfCached = true) (hg : s.failGet = false)
    (hstale : ∀ e, tsFind s (cacheKey req.path req.rawQuery) = some e →
      policy.max ≤ now - e.storedAt) :
    (cachingMiddleware handler policy s req now).handlerInvoked = false ∧
    (cachingMiddleware handler policy s req now).response =
      ⟨200, "", none, false⟩ := by
  unfold cachingMiddleware
  simp only [hm, ne_eq, not_true_eq_false, if_false, Bool.false_eq_true]
  unfold cacheHandler
  simp [hd, routeLookup_reject s _ policy req.rcc now hd hg hoic hstale]

/-- Witness for the amended C7 at a concrete empty cache. -/
theorem onlyIfCached_rejects_without_usable_entry_witness :
    (cachingMiddleware wHandler ⟨1, 5⟩ wEmpty wReqOIC 0).handlerInvoked =
        false ∧
      (cachingMiddleware wHandler ⟨1, 5⟩ wEmpty wReqOIC 0).response =
        ⟨200, "", none, false⟩ :=
  onlyIfCached_rejects_without_usable_entry wHandler ⟨1, 5⟩ wEmpty wReqOIC 0
    (by decide) rfl rfl rfl
    (by
      intro e he
      simp [tsFind, wEmpty] at he)

/-- C8: the cache key is order-independent in the query parameters — any
two raw queries parsing to the same multiset of `(name, value)` pairs give
the same key — `Key("/r", "b=2&a=1") = Key("/r", "a=1&b=2")`, while a
differing value for the same name gives a different key:
`Key("/r", "a=1") ≠ Key("/r", "a=2")`. -/
theorem cacheKey_deterministic :
    (∀ (r q1 q2 : String), List.Perm (parseQuery q1) (parseQuery q2) →
      cacheKey r q1 = cacheKey r q2) ∧
    cacheKey "/r" "b=2&a=1" = cacheKey "/r" "a=1&b=2" ∧
    cacheKey "/r" "a=1" ≠ cacheKey "/r" "a=2" := by
  refine ⟨?_, by decide, by decide⟩
  intro r q1 q2 h
  unfold cacheKey
  have hs : List.insertionSort pairLe (parseQuery q1) =
      List.insertionSort pairLe (parseQuery q2) :=
    List.eq_of_perm_of_sorted
      (((List.perm_insertionSort pairLe (parseQuery q1)).trans h).trans
        (List.perm_insertionSort pairLe (parseQuery q2)).symm)
      (List.sorted_insertionSort pairLe (parseQuery q1))
      (List.sorted_insertionSort pairLe (parseQuery q2))
  rw [hs]

/-- Witness for C8 at a concrete pair of reordered queries. -/
theorem cacheKey_deterministic_witness :
    List.Perm (parseQuery "x=1&y=2") (parseQuery "y=2&x=1") ∧
    cacheKey "/p" "x=1&y=2" = cacheKey "/p" "y=2&x=1" :=
  ⟨by decide, cacheKey_deterministic.1 "/p" "x=1&y=2" "y=2&x=1" (by decide)⟩

/-! ## Store-contract theorems -/

/-- C4 counterexample: a clean miss on the Redis-backed store (backend
reachable, key absent) returns a NON-nil error — the `Empty` sentinel —
refuting "found=false together with a nil error ... for both stores". -/
theorem redis_clean_miss_has_error :
    (redisGet true ⟨[]⟩ "foo" 0).err = some RErr.empty := by
  decide

/-- C4 amended: on a clean miss the in-process LRU store returns
`found=false` with a nil error, while the Redis-backed store returns
`found=false` together with the non-nil `Empty` sentinel error. -/
theorem clean_miss_reporting :
    (∀ (c : LruCache) (k : String), lruFind c k = none →
      (cacheGet c k).1 = ⟨none, false, none⟩) ∧
    (∀ (s : RedisState) (k : String) (t : Nat), redisFind s k t = none →
      redisGet true s k t = ⟨none, false, some RErr.empty⟩) := by
  constructor
  · intro c k h
    simp [cacheGet, h]
  · intro s k t h
    simp [redisGet, h]

/-- Witness for the amended C4 at concrete empty stores. -/
theorem clean_miss_reporting_witness :
    lruFind ⟨4, []⟩ "a" = none ∧
    (cacheGet ⟨4, []⟩ "a").1 = ⟨none, false, none⟩ ∧
    redisFind ⟨[]⟩ "a" 0 = none ∧
    redisGet true ⟨[]⟩ "a" 0 = ⟨none, false, some RErr.empty⟩ :=
  ⟨by decide, clean_miss_reporting.1 ⟨4, []⟩ "a" (by decide), by decide,
    clean_miss_reporting.2 ⟨[]⟩ "a" 0 (by decide)⟩

/-- C6: `Remove` and `Purge` are idempotent on both stores — removing an
absent key returns no error and leaves the store unchanged, and purging
twice in a row leaves the store empty both times. -/
theorem remove_purge_idempotent :
    (∀ (c : LruCache) (k : String), lruFind c k = none →
      cacheRemove c k = (none, c)) ∧
    (∀ c : LruCache,
      (cachePurge (cachePurge c).2).2.items = [] ∧
        (cachePurge c).2.items = []) ∧
    (∀ (s : RedisState) (k : String), (∀ e ∈ s.entries, e.1 ≠ k) →
      redisRemove true s k = (none, s)) ∧
    (∀ s : RedisState,
      redisPurge true (redisPurge true s).2 = (none, ⟨[]⟩) ∧
        redisPurge true s = (none, ⟨[]⟩)) := by
  refine ⟨?_, fun c => ⟨rfl, rfl⟩, ?_, fun s => ⟨rfl, rfl⟩⟩
  · intro c k h
    have hfilter : c.items.filter (fun p => !decide (p.1 = k)) = c.items := by
      rw [List.filter_eq_self]
      intro a ha
      simp only [lruFind, Option.map_eq_none'] at h
      rw [List.find?_eq_none] at h
      simpa using h a ha
    simp [cacheRemove, lruRemoveKey, hfilter]
  · intro s k h
    have hfilter : s.entries.filter (fun e => !decide (e.1 = k)) = s.entries := by
      rw [List.filter_eq_self]
      intro a ha
      simpa using h a ha
    simp [redisRemove, hfilter]

/-- Witness for C6 at concrete one-entry stores and an absent key. -/
theorem remove_purge_idempotent_witness :
    cacheRemove ⟨4, [("a", "1")]⟩ "b" = (none, ⟨4, [("a", "1")]⟩) ∧
    (cachePurge (cachePurge (⟨4, [("a", "1")]⟩ : LruCache)).2).2.items = [] ∧
    redisRemove true ⟨[("a", "1", none)]⟩ "b" = (none, ⟨[("a", "1", none)]⟩) ∧
    redisPurge true (redisPurge true ⟨[("a", "1", none)]⟩).2 = (none, ⟨[]⟩) :=
  ⟨remove_purge_idempotent.1 ⟨4, [("a", "1")]⟩ "b" (by decide),
    (remove_purge_idempotent.2.1 ⟨4, [("a", "1")]⟩).1,
    remove_purge_idempotent.2.2.1 ⟨[("a", "1", none)]⟩ "b" (by decide),
    (remove_purge_idempotent.2.2.2 ⟨[("a", "1", none)]⟩).1⟩

/-- C9: `Get` preserves the result shape on both stores: `found=true` comes
with a nil error, and `found=false` comes with a nil value. -/
theorem get_result_shape :
    (∀ (c : LruCache) (k : String),
      ((cacheGet c k).1.found = true ∧ (cacheGet c k).1.err = none) ∨
      ((cacheGet c k).1.found = false ∧ (cacheGet c k).1.value = none)) ∧
    (∀ (up : Bool) (s : RedisState) (k : String) (t : Nat),
      ((redisGet up s k t).found = true ∧ (redisGet up s k t).err = none) ∨
      ((redisGet up s k t).found = false ∧
        (redisGet up s k t).value = none)) := by
  constructor
  · intro c k
    cases h : lruFind c k with
    | some v =>
      left
      simp [cacheGet, h]
    | none =>
      right
      simp [cacheGet, h]
  · intro up s k t
    cases up with
    | false =>
      right
      simp [redisGet]
    | true =>
      cases h : redisFind s k t with
      | some v =>
        left
        simp [redisGet, h]
      | none =>
        right
        simp [redisGet, h]

/-- C10: every write-path operation of the in-process LRU store — `Set`,
`SetTTL`, `Remove`, `Purge` — returns a nil error on every input. -/
theorem lru_write_ops_never_error :
    ∀ (c : LruCache) (s : LruStore) (k : String) (v : Val) (ttl t : Nat),
      (cacheSet c k v).1 = none ∧ (setTTLAt s k v ttl t).1 = none ∧
      (cacheRemove c k).1 = none ∧ (cachePurge c).1 = none :=
  fun _ _ _ _ _ _ => ⟨rfl, rfl, rfl, rfl⟩

/-! ## SetTTL timing (C3) -/

/-- C3 counterexample: `SetTTL("k","v1",10)` at instant 0 and again
`SetTTL("k","v2",10)` at instant 8 on the in-process LRU store; the first
call's un-cancelled timer fires at instant 10 and removes the key, so `Get`
at instant 12 — before the second call's ttl would expire at 18 — already
misses. -/
theorem setTTL_overwrite_removed_early :
    (12 : Nat) < 8 + 10 ∧
    (getAt (setTTLAt (setTTLAt ⟨⟨10, []⟩, []⟩ "k" "v1" 10 0).2 "k" "v2" 10
        8).2 "k" 12).1.found = false :=
  ⟨by decide, by decide⟩

theorem lruFind_cons_self (n : Nat) (k : String) (v : Val)
    (rest : List (String × Val)) :
    lruFind ⟨n, (k, v) :: rest⟩ k = some v := by
  simp [lruFind]

theorem lruFind_lruAdd_self (c : LruCache) (k : String) (v : Val)
    (hcap : 1 ≤ c.size) : lruFind (lruAdd c k v) k = some v := by
  unfold lruAdd
  by_cases hc : lruContains c k = true
  · rw [if_pos hc]
    exact lruFind_cons_self _ _ _ _
  · rw [if_neg hc]
    show lruFind ⟨c.size, if c.size < ((k, v) :: c.items).length then
        ((k, v) :: c.items).dropLast else (k, v) :: c.items⟩ k = some v
    cases hitems : c.items with
    | nil =>
      have hno : ¬ c.size < ((k, v) :: ([] : List (String × Val))).length := by
        simp only [List.length_cons, List.length_nil]
        omega
      rw [if_neg hno]
      exact lruFind_cons_self _ _ _ _
    | cons i is =>
      by_cases hlen : c.size < ((k, v) :: i :: is).length
      · rw [if_pos hlen, List.dropLast_cons₂]
        exact lruFind_cons_self _ _ _ _
      · rw [if_neg hlen]
        exact lruFind_cons_self _ _ _ _

theorem lruFind_removeKey_ne (c : LruCache) (k k2 : String) (h : k2 ≠ k) :
    lruFind (lruRemoveKey c k2) k = lruFind c k := by
  unfold lruRemoveKey lruFind
  simp only []
  generalize c.items = l
  induction l with
  | nil => rfl
  | cons a t ih =>
    by_cases ha : a.1 = k2
    · rw [List.filter_cons_of_neg (by simp [ha])]
      rw [List.find?_cons_of_neg _ (by simp [ha, h])]
      exact ih
    · rw [List.filter_cons_of_pos (by simp [ha])]
      by_cases hak : a.1 = k
      · rw [List.find?_cons_of_pos _ (by simp [hak]),
          List.find?_cons_of_pos _ (by simp [hak])]
      · rw [List.find?_cons_of_neg _ (by simp [hak]),
          List.find?_cons_of_neg _ (by simp [hak])]
        exact ih

theorem foldlRemove_find (l : List (Nat × String)) (c : LruCache)
    (k : String) (h : ∀ tm ∈ l, tm.2 ≠ k) :
    lruFind (l.foldl (fun c2 tm => lruRemoveKey c2 tm.2) c) k =
      lruFind c k := by
  induction l generalizing c with
  | nil => rfl
  | cons tm t ih =>
    rw [List.foldl_cons]
    rw [ih _ (fun x hx => h x (List.mem_cons_of_mem _ hx))]
    exact lruFind_removeKey_ne c k tm.2 (h tm (List.mem_cons_self _ _))

theorem foldlRemove_size (l : List (Nat × String)) (c : LruCache) :
    (l.foldl (fun c2 tm => lruRemoveKey c2 tm.2) c).size = c.size := by
  induction l generalizing c with
  | nil => rfl
  | cons tm t ih =>
    rw [List.foldl_cons, ih]
    rfl

theorem lruFind_removeKey_self (c : LruCache) (k : String) :
    lruFind (lruRemoveKey c k) k = none := by
  unfold lruRemoveKey lruFind
  simp only [Option.map_eq_none']
  rw [List.find?_eq_none]
  intro a ha
  rw [List.mem_filter] at ha
  simpa using ha.2

/-- C3 amended: `SetTTL(key, value, ttl)` schedules automatic removal `ttl`
after the call on both stores: from `t + ttl` on, `Get` misses the key.
Until `t + ttl` the entry stays retrievable for the Redis-backed store
(`SET ... px` replaces the previous deadline); for the in-process LRU store
retention until the new deadline holds only when no removal timer scheduled
by an earlier `SetTTL` on the same key is still pending — such an
un-cancelled earlier timer removes the overwritten entry at the earlier
deadline. -/
theorem setTTL_ttl_measured_from_call :
    (∀ (s : RedisState) (k : String) (v : Val) (ttl t u : Nat), u < t + ttl →
      redisGet true (redisSetTTL true s k v ttl t).2 k u =
        ⟨some v, true, none⟩) ∧
    (∀ (s : RedisState) (k : String) (v : Val) (ttl t u : Nat), t + ttl ≤ u →
      redisGet true (redisSetTTL true s k v ttl t).2 k u =
        ⟨none, false, some RErr.empty⟩) ∧
    (∀ (s : LruStore) (k : String) (v : Val) (ttl t u : Nat), u < t + ttl →
      1 ≤ s.cache.size → (∀ tm ∈ s.timers, tm.2 = k → tm.1 ≤ t) →
      (getAt (setTTLAt s k v ttl t).2 k u).1 = ⟨some v, true, none⟩) ∧
    (∀ (s : LruStore) (k : String) (v : Val) (ttl t u : Nat), t + ttl ≤ u →
      (getAt (setTTLAt s k v ttl t).2 k u).1 = ⟨none, false, none⟩) := by
  refine ⟨?_, ?_, ?_, ?_⟩
  · intro s k v ttl t u hu
    simp [redisSetTTL, redisUpsert, redisGet, redisFind, redisLive, hu]
  · intro s k v ttl t u hu
    have hstate : (redisSetTTL true s k v ttl t).2 =
        redisUpsert s k v (some (t + ttl)) := rfl
    have hfind : redisFind (redisUpsert s k v (some (t + ttl))) k u = none := by
      unfold redisUpsert redisFind
      rw [List.filter_cons_of_neg (by
        simp [redisLive]
        omega)]
      simp only [Option.map_eq_none']
      rw [List.find?_eq_none]
      intro e he
      rw [List.mem_filter] at he
      have h1 := he.1
      rw [List.mem_filter] at h1
      simpa using h1.2
    rw [hstate]
    simp [redisGet, hfind]
  · intro s k v ttl t u hu hcap htm
    unfold setTTLAt getAt fireDue
    simp only []
    set c1 := (s.timers.filter (fun tm => tm.1 ≤ t)).foldl
      (fun c2 tm => lruRemoveKey c2 tm.2) s.cache with hc1
    set tms1 := s.timers.filter (fun tm => ¬ tm.1 ≤ t) with htms1
    set c2 := lruAdd c1 k v with hc2
    set due := (tms1 ++ [(t + ttl, k)]).filter (fun tm => tm.1 ≤ u) with hdue
    have hnok : ∀ tm ∈ due, tm.2 ≠ k := by
      intro tm hin
      rw [hdue, List.mem_filter] at hin
      rcases hin with ⟨hmem, hle⟩
      rw [List.mem_append] at hmem
      rcases hmem with hmem | hmem
      · rw [htms1, List.mem_filter] at hmem
        rcases hmem with ⟨hmem, hnt⟩
        intro hkk
        have := htm tm hmem hkk
        simp at hnt
        omega
      · simp at hmem
        exfalso
        rw [hmem] at hle
        simp at hle
        omega
    have hsz : 1 ≤ c1.size := by
      rw [hc1, foldlRemove_size]
      exact hcap
    have hfind : lruFind (due.foldl (fun c3 tm => lruRemoveKey c3 tm.2) c2) k =
        some v := by
      rw [foldlRemove_find due c2 k hnok, hc2, lruFind_lruAdd_self c1 k v hsz]
    simp [cacheGet, hfind]
  · intro s k v ttl t u hu
    unfold setTTLAt getAt fireDue
    simp only []
    set c1 := (s.timers.filter (fun tm => tm.1 ≤ t)).foldl
      (fun c2 tm => lruRemoveKey c2 tm.2) s.cache with hc1
    set tms1 := s.timers.filter (fun tm => ¬ tm.1 ≤ t) with htms1
    set c2 := lruAdd c1 k v with hc2
    set due := (tms1 ++ [(t + ttl, k)]).filter (fun tm => tm.1 ≤ u) with hdue
    have hdue2 : due = tms1.filter (fun tm => tm.1 ≤ u) ++ [(t + ttl, k)] := by
      rw [hdue, List.filter_append]
      congr 1
      simp [hu]
    have hfind : lruFind (due.foldl (fun c3 tm => lruRemoveKey c3 tm.2) c2) k =
        none := by
      rw [hdue2, List.foldl_append]
      simp only [List.foldl_cons, List.foldl_nil]
      exact lruFind_removeKey_self _ k
    simp [cacheGet, hfind]

/-- Witness for the amended C3: all four clauses at concrete fresh stores —
the entry stored at instant 0 with ttl 10 is retrievable at instant 9 and
gone at instant 10 on both stores. -/
theorem setTTL_ttl_measured_from_call_witness :
    redisGet true (redisSetTTL true ⟨[]⟩ "k" "v" 10 0).2 "k" 9 =
        ⟨some "v", true, none⟩ ∧
      redisGet true (redisSetTTL true ⟨[]⟩ "k" "v" 10 0).2 "k" 10 =
        ⟨none, false, some RErr.empty⟩ ∧
      (getAt (setTTLAt ⟨⟨10, []⟩, []⟩ "k" "v" 10 0).2 "k" 9).1 =
        ⟨some "v", true, none⟩ ∧
      (getAt (setTTLAt ⟨⟨10, []⟩, []⟩ "k" "v" 10 0).2 "k" 10).1 =
        ⟨none, false, none⟩ :=
  ⟨setTTL_ttl_measured_from_call.1 ⟨[]⟩ "k" "v" 10 0 9 (by decide),
    setTTL_ttl_measured_from_call.2.1 ⟨[]⟩ "k" "v" 10 0 10 (by decide),
    setTTL_ttl_measured_from_call.2.2.1 ⟨⟨10, []⟩, []⟩ "k" "v" 10 0 9
      (by decide) (by decide) (by simp),
    setTTL_ttl_measured_from_call.2.2.2 ⟨⟨10, []⟩, []⟩ "k" "v" 10 0 10
      (by decide)⟩

end Patron
